import Mathlib

/-!
Verification of the asset discovery and naming engine of go-bindata
(`convert.go`).  The Go code is shallowly embedded: strings are lists of
characters (the inputs of interest are ASCII, where Go's byte-wise
operations coincide with character-wise ones), the `knownFuncs` and
`visitedPaths` maps are association lists threaded explicitly, the
filesystem is an oracle record supplying exactly the operations the code
calls (`os.Stat`, `Readdir`, `os.Readlink`), and the unbounded recursion
of `findFiles` is driven by an explicit fuel parameter.  A `nil`-error
result paired with a state models Go's convention of returning mutated
reference state together with an `error`; note that in the Go source the
results of the two recursive `findFiles` calls (directory and symlink
recursion) are discarded, which the embedding reproduces faithfully.
-/

deriving instance DecidableEq for Except

namespace Bindata

/-- Strings are modelled as lists of characters. -/
abbrev Str := List Char

/-! ### Character classes (from `regFuncName = [^a-zA-Z0-9_]` and `unicode` use) -/

/-- Decimal digit test, as `unicode.IsDigit` behaves on ASCII. -/
def isDigitChar (c : Char) : Bool := 48 ≤ c.toNat && c.toNat ≤ 57

/-- Membership in the class `[a-zA-Z0-9_]`, the complement of the
`regFuncName` regular expression of `convert.go`. -/
def isValidFuncChar (c : Char) : Bool :=
  (97 ≤ c.toNat && c.toNat ≤ 122) || (65 ≤ c.toNat && c.toNat ≤ 90) ||
    isDigitChar c || c = '_'

/-- ASCII lower-casing of one character, as `strings.ToLower` acts on
ASCII input. -/
def toLowerAscii (c : Char) : Char :=
  if 65 ≤ c.toNat && c.toNat ≤ 90 then Char.ofNat (c.toNat + 32) else c

/-- ASCII upper-casing of one character, as `strings.ToUpper` acts on the
single-byte strings it is given in `safeFunctionName`. -/
def toUpperAscii (c : Char) : Char :=
  if 97 ≤ c.toNat && c.toNat ≤ 122 then Char.ofNat (c.toNat - 32) else c

/-! ### Path manipulation (`path/filepath` on a Unix system, where
`filepath.ToSlash` is the identity) -/

/-- Split a string at every `/`, keeping empty pieces. -/
def splitSlash : Str → List Str
  | [] => [[]]
  | c :: rest =>
    if c = '/' then [] :: splitSlash rest
    else
      match splitSlash rest with
      | [] => [[c]]
      | h :: t => (c :: h) :: t

/-- The component-stack processing of `filepath.Clean`: empty and `.`
components are dropped, `..` pops (inside an absolute path) or is kept
when nothing can be popped (in a relative path). -/
def cleanComps (abs : Bool) : List Str → List Str → List Str
  | acc, [] => acc
  | acc, c :: rest =>
    if c = [] ∨ c = ['.'] then cleanComps abs acc rest
    else if c = ['.', '.'] then
      if abs then cleanComps abs acc.dropLast rest
      else if acc ≠ [] ∧ acc.getLast? ≠ some ['.', '.'] then
        cleanComps abs acc.dropLast rest
      else cleanComps abs (acc ++ [c]) rest
    else cleanComps abs (acc ++ [c]) rest

/-- Interleave path components with `/`. -/
def joinComps : List Str → Str
  | [] => []
  | [c] => c
  | c :: rest => c ++ '/' :: joinComps rest

/-- Rebuild a cleaned path from its components. -/
def renderPath (abs : Bool) (comps : List Str) : Str :=
  if abs then '/' :: joinComps comps
  else if comps = [] then ['.'] else joinComps comps

/-- Does the path start with a slash (`filepath.IsAbs`)? -/
def isAbsPath (p : Str) : Bool := p.head? = some '/'

/-- The embedding of `filepath.Clean`. -/
def cleanPath (p : Str) : Str :=
  if p = [] then ['.']
  else renderPath (isAbsPath p) (cleanComps (isAbsPath p) [] (splitSlash p))

/-- The embedding of `filepath.Abs`: clean an absolute path, or resolve a
relative one against the working directory and clean.  `os.Getwd` errors
are not modelled (the code paths under study ignore them). -/
def absPath (wd p : Str) : Str :=
  if isAbsPath p then cleanPath p else cleanPath (wd ++ '/' :: p)

/-- The embedding of the two-argument `filepath.Join`: empty elements are
skipped, the result is cleaned; with no non-empty element the result is
empty. -/
def joinPath (a b : Str) : Str :=
  if a = [] then if b = [] then [] else cleanPath b
  else if b = [] then cleanPath a
  else cleanPath (a ++ '/' :: b)

/-- The embedding of `filepath.Dir`: everything up to and including the
last slash (or the empty string if there is none), cleaned. -/
def dirPath (p : Str) : Str :=
  cleanPath ((p.reverse.dropWhile (fun c => c ≠ '/')).reverse)

/-- The embedding of `strings.HasPrefix`. -/
def strHasPrefix : Str → Str → Bool
  | _, [] => true
  | [], _ :: _ => false
  | c :: cs, d :: ds => c = d && strHasPrefix cs ds

/-- Go byte-wise string comparison `<`, used by the `byName` sort. -/
def strLt : Str → Str → Bool
  | _, [] => false
  | [], _ :: _ => true
  | a :: as, b :: bs =>
    if a.toNat < b.toNat then true
    else if b.toNat < a.toNat then false
    else strLt as bs

/-! ### The identifier sanitizer (`safeFunctionName`, lines 237-269) -/

/-- The character scan of `safeFunctionName` (lines 244-253): an invalid
character sets the `toUpper` flag instead of being copied; a valid
character is copied, upper-cased exactly when the flag is pending. -/
def sanitizeScan : List Char → Bool → List Char
  | [], _ => []
  | c :: rest, up =>
    if !isValidFuncChar c then sanitizeScan rest true
    else if up then toUpperAscii c :: sanitizeScan rest false
    else c :: sanitizeScan rest up

/-- Little-endian decimal digits of `n`, with an explicit structural fuel
(`n` itself suffices, as `n / 10 < n`). -/
def natCharsAux : Nat → Nat → List Char
  | 0, _ => []
  | fuel + 1, n => if n = 0 then [] else Nat.digitChar (n % 10) :: natCharsAux fuel (n / 10)

/-- Decimal rendering of a counter, as `fmt.Sprintf("%s%d", ...)` renders
its integer argument. -/
def natChars (n : Nat) : Str :=
  if n = 0 then ['0'] else (natCharsAux n n).reverse

/-- The candidate identifier computed by `safeFunctionName` before the
`knownFuncs` disambiguation: lower-case, scan, and prefix `_` when the
first character is a digit.  The Go code indexes `name[0]` without a
length check, so an input whose scan result is empty makes the function
panic; that panic is modelled as `none`. -/
def candFunc (name : Str) : Option Str :=
  match sanitizeScan (name.map toLowerAscii) false with
  | [] => none
  | c :: rest =>
    some (if isDigitChar c then '_' :: c :: rest else c :: rest)

/-- The `knownFuncs` map: an association list from identifier bases to
their next disambiguation counter. -/
abbrev KnownMap := List (Str × Nat)

/-- Map lookup. -/
def lookupKnown (b : Str) : KnownMap → Option Nat
  | [] => none
  | (k, w) :: rest => if k = b then some w else lookupKnown b rest

/-- Map update/insert. -/
def setKnown (b : Str) (v : Nat) : KnownMap → KnownMap
  | [] => [(b, v)]
  | (k, w) :: rest => if k = b then (k, v) :: rest else (k, w) :: setKnown b v rest

/-- The embedding of `safeFunctionName` (lines 237-269).  `none` models
the index-out-of-range panic at `name[0]` on an empty scan result. -/
def safeFunctionName (name : Str) (known : KnownMap) : Option (Str × KnownMap) :=
  match candFunc name with
  | none => none
  | some f =>
    match lookupKnown f known with
    | some num => some (f ++ natChars num, setKnown f (num + 1) known)
    | none => some (f, setKnown f 2 known)

/-! ### The filesystem interface and `findFiles` (lines 125-229) -/

/-- Errors surfaced by discovery.  Filesystem errors are produced by the
oracle and propagated verbatim; `invalidFile` is the
`fmt.Errorf("Invalid file: %v", asset.Path)` of line 217;
`sanitizerPanic` models the `safeFunctionName` panic reaching `findFiles`;
`outOfFuel` marks an exhausted fuel budget of the embedding. -/
inductive Err where
  | osErr (msg : Str) (path : Str)
  | invalidFile (path : Str)
  | sanitizerPanic (name : Str)
  | outOfFuel
deriving DecidableEq

/-- What the code reads from an `os.FileInfo`: the entry name, `IsDir()`,
and the `ModeSymlink` bit. -/
structure FileInfo where
  name : Str
  isDir : Bool
  isSymlink : Bool
deriving DecidableEq

/-- The filesystem oracle: the working directory together with the three
operations `findFiles` performs.  `stat` follows symlinks (as `os.Stat`
does), `readdir` models `os.Open` plus `Readdir(0)` on a path the OS
resolves, `readlink` models `os.Readlink`. -/
structure FS where
  wd : Str
  stat : Str → Except Err FileInfo
  readdir : Str → Except Err (List FileInfo)
  readlink : Str → Except Err Str

/-- One discovered asset (the fields of `Asset` used by discovery). -/
structure Asset where
  Path : Str
  Name : Str
  Func : Str
deriving DecidableEq

/-- The `visitedPaths` set. -/
abbrev PathSet := List Str

/-- Set insertion (idempotent, as for a Go `map[string]bool`). -/
def insertPath (p : Str) (s : PathSet) : PathSet := if p ∈ s then s else p :: s

/-- The mutable state threaded by reference through the Go recursion: the
`toc` accumulator, `knownFuncs`, and `visitedPaths`. -/
structure St where
  toc : List Asset
  known : KnownMap
  visited : PathSet
deriving DecidableEq

/-- Ignore patterns are predicates on the full path string, as
`regexp.MatchString` provides. -/
def matchesIgnore (ignore : List (Str → Bool)) (p : Str) : Bool :=
  ignore.any (fun re => re p)

/-- Insertion into a name-sorted entry list. -/
def insertByName (f : FileInfo) : List FileInfo → List FileInfo
  | [] => [f]
  | g :: rest =>
    if strLt g.name f.name then g :: insertByName f rest else f :: g :: rest

/-- The `sort.Sort(byName(list))` of line 161. -/
def sortByName : List FileInfo → List FileInfo
  | [] => []
  | f :: rest => insertByName f (sortByName rest)

/-- Drop one leading slash (lines 211-213). -/
def stripLeadSlash (s : Str) : Str :=
  match s with
  | [] => []
  | c :: rest => if c = '/' then rest else c :: rest

/-- The entry loop of `findFiles` (lines 164-226).  `rec` is the recursive
`findFiles` invocation (with `prefix` and `recursive` already fixed); in
the Go source both recursive calls discard their returned error, so only
the mutated state of `rec` is used. -/
def ffLoop (fs : FS) (ignore : List (Str → Bool)) (rec : Str → St → St × Option Err)
    (dir dirpath pre : Str) (recursive : Bool) :
    List FileInfo → St → St × Option Err
  | [], st => (st, none)
  | f :: rest, st =>
    let path := joinPath dirpath f.name
    if matchesIgnore ignore path then
      ffLoop fs ignore rec dir dirpath pre recursive rest st
    else if f.isDir then
      if recursive then
        let st2 := (rec (joinPath dir f.name)
          { st with visited := insertPath path st.visited }).1
        ffLoop fs ignore rec dir dirpath pre recursive rest st2
      else ffLoop fs ignore rec dir dirpath pre recursive rest st
    else if f.isSymlink then
      match fs.readlink path with
      | Except.error e => (st, some e)
      | Except.ok lp =>
        let linkPath := if isAbsPath lp then lp else absPath fs.wd (dirpath ++ '/' :: lp)
        if linkPath ∈ st.visited then
          ffLoop fs ignore rec dir dirpath pre recursive rest st
        else
          let st2 := (rec path { st with visited := insertPath linkPath st.visited }).1
          ffLoop fs ignore rec dir dirpath pre recursive rest st2
    else
      let name1 := if strHasPrefix path pre then path.drop pre.length
                   else joinPath dir f.name
      let name2 := stripLeadSlash name1
      if name2 = [] then (st, some (Err.invalidFile path))
      else
        match safeFunctionName name2 st.known with
        | none => (st, some (Err.sanitizerPanic name2))
        | some (fn, known') =>
          ffLoop fs ignore rec dir dirpath pre recursive rest
            { st with toc := st.toc ++ [{ Path := absPath fs.wd path,
                                          Name := name2, Func := fn }],
                      known := known' }

/-- The embedding of `findFiles` (lines 128-229), with an explicit fuel
parameter standing in for unbounded Go recursion. -/
def findFiles (fs : FS) (ignore : List (Str → Bool)) :
    Nat → Str → Str → Bool → St → St × Option Err
  | 0, _, _, _, st => (st, some Err.outOfFuel)
  | fuel + 1, dir, pre0, recursive, st =>
    let dirpath := if pre0 ≠ [] then absPath fs.wd dir else dir
    let pre := if pre0 ≠ [] then absPath fs.wd pre0 else pre0
    match fs.stat dirpath with
    | Except.error e => (st, some e)
    | Except.ok fi =>
      if !fi.isDir then
        ffLoop fs ignore (fun d s => findFiles fs ignore fuel d pre recursive s)
          dir (dirPath dirpath) pre recursive [fi] st
      else
        let st1 := { st with visited := insertPath dirpath st.visited }
        match fs.readdir dirpath with
        | Except.error e => (st1, some e)
        | Except.ok list =>
          ffLoop fs ignore (fun d s => findFiles fs ignore fuel d pre recursive s)
            dir dirpath pre recursive (sortByName list) st1

/-- One configured input root, as in `Config.Input`. -/
structure InputSpec where
  path : Str
  recursive : Bool

/-- The discovery loop of `Translate` (lines 31-39): each root is walked
with the shared state; the first reported error aborts. -/
def discoverLoop (fs : FS) (ignore : List (Str → Bool)) (fuel : Nat) (pre : Str) :
    List InputSpec → St → St × Option Err
  | [], st => (st, none)
  | i :: rest, st =>
    match findFiles fs ignore fuel i.path pre i.recursive st with
    | (st', none) => discoverLoop fs ignore fuel pre rest st'
    | (st', some e) => (st', some e)

/-- The asset-discovery phase of `Translate`: on success the catalog is
handed on, on error only the error is returned (the partially built `toc`
is discarded with the stack frame). -/
def translateAssets (fs : FS) (ignore : List (Str → Bool)) (fuel : Nat)
    (inputs : List InputSpec) (pre : Str) : Except Err (List Asset) :=
  match discoverLoop fs ignore fuel pre inputs { toc := [], known := [], visited := [] } with
  | (st, none) => Except.ok st.toc
  | (_, some e) => Except.error e


/-! ### Helper lemmas about the knownFuncs map -/

lemma lookupKnown_setKnown_self (b : Str) (v : Nat) (m : KnownMap) :
    lookupKnown b (setKnown b v m) = some v := by
  induction m with
  | nil => simp [setKnown, lookupKnown]
  | cons kv rest ih =>
    obtain ⟨k, w⟩ := kv
    by_cases h : k = b <;> simp [setKnown, lookupKnown, h, ih]

lemma lookupKnown_setKnown_ne (b b' : Str) (v : Nat) (m : KnownMap) (h : b' ≠ b) :
    lookupKnown b' (setKnown b v m) = lookupKnown b' m := by
  have hbb : b ≠ b' := fun hc => h hc.symm
  induction m with
  | nil => simp [setKnown, lookupKnown, hbb]
  | cons kv rest ih =>
    obtain ⟨k, w⟩ := kv
    by_cases hk : k = b
    · subst hk
      simp [setKnown, lookupKnown, hbb]
    · simp [setKnown, lookupKnown, hk, ih]

/-! ### C8: the character scan characterized by its specified behaviour -/

/-- The transformation described by the specification, stated
independently of the Go scan loop: after lower-casing, a valid character
is kept, and it is upper-cased exactly when it is immediately preceded by
an invalid character (the end of a maximal invalid run); invalid
characters are dropped. -/
def specScan (t : List Char) : List Char :=
  (t.zip ((none : Option Char) :: t.map some)).filterMap
    (fun cp =>
      if isValidFuncChar cp.1 then
        some (match cp.2 with
          | some q => if isValidFuncChar q then cp.1 else toUpperAscii cp.1
          | none => cp.1)
      else none)

/-- Modelled from the spec: the full sanitizer transform as the
specification words it (lower-case, run-compacting camel-case scan, and a
`_`-prefix when the first character is a digit); empty scan results are
the caller-contract violation, modelled as `none`. -/
def specSanitize (name : Str) : Option Str :=
  match specScan (name.map toLowerAscii) with
  | [] => none
  | c :: rest => some (if isDigitChar c then '_' :: c :: rest else c :: rest)

/-- The pending-capitalization flag of the Go loop, expressed in terms
of the previous character. -/
def flagOfPrev : Option Char → Bool
  | none => false
  | some q => !isValidFuncChar q

lemma sanitizeScan_eq_specScan_aux (t : List Char) : ∀ p : Option Char,
    sanitizeScan t (flagOfPrev p) =
      (t.zip (p :: t.map some)).filterMap
        (fun cp =>
          if isValidFuncChar cp.1 then
            some (match cp.2 with
              | some q => if isValidFuncChar q then cp.1 else toUpperAscii cp.1
              | none => cp.1)
          else none) := by
  induction t with
  | nil => intro p; simp [sanitizeScan]
  | cons c rest ih =>
    intro p
    by_cases hc : isValidFuncChar c
    · cases p with
      | none =>
        simpa [sanitizeScan, hc, flagOfPrev, List.filterMap_cons] using ih (some c)
      | some q =>
        by_cases hq : isValidFuncChar q <;>
          simpa [sanitizeScan, hc, hq, flagOfPrev, List.filterMap_cons] using ih (some c)
    · have hrec := ih (some c)
      cases p with
      | none =>
        simpa [sanitizeScan, hc, flagOfPrev, List.filterMap_cons] using hrec
      | some q =>
        simpa [sanitizeScan, hc, flagOfPrev, List.filterMap_cons] using hrec

/-- Claim C8: the identifier sanitizer lower-cases its input, copies only
characters of the class `[a-z0-9_]` (equivalently `[a-zA-Z0-9_]` after
lower-casing), drops each maximal run of characters outside the class
while upper-casing the next valid character, and prefixes `_` when the
first character of the result is a decimal digit.  This is proved as an
equivalence between the embedded Go scan (`candFunc`) and the
specification-worded transform (`specSanitize`). -/
theorem C8_sanitizer_matches_spec : ∀ name : Str, candFunc name = specSanitize name := by
  intro name
  have h := sanitizeScan_eq_specScan_aux (name.map toLowerAscii) none
  simp only [flagOfPrev] at h
  simp [candFunc, specSanitize, specScan, h]

/-! ### C9: disambiguation-counter behaviour over a sequence of calls -/

/-- A sequence of sanitizer calls sharing one `knownFuncs` map, as one
discovery run performs them. -/
def sanRun : List Str → KnownMap → Option (List Str × KnownMap)
  | [], m => some ([], m)
  | n :: rest, m =>
    match safeFunctionName n m with
    | none => none
    | some (f, m') =>
      match sanRun rest m' with
      | none => none
      | some (gs, m'') => some (f :: gs, m'')

lemma sanRun_same_base_aux (b : Str) : ∀ (names : List Str) (m : KnownMap) (v : Nat),
    (∀ n ∈ names, candFunc n = some b) →
    lookupKnown b m = some v →
    ∃ m', sanRun names m =
        some ((List.range names.length).map (fun i => b ++ natChars (v + i)), m') ∧
      lookupKnown b m' = some (v + names.length) := by
  intro names
  induction names with
  | nil =>
    intro m v _ hv
    exact ⟨m, by simp [sanRun], by simpa using hv⟩
  | cons n rest ih =>
    intro m v hall hv
    have hn : candFunc n = some b := hall n (by simp)
    obtain ⟨m', hrun, hm'⟩ := ih (setKnown b (v + 1) m) (v + 1)
      (fun x hx => hall x (by simp [hx])) (lookupKnown_setKnown_self b (v + 1) m)
    refine ⟨m', ?_, ?_⟩
    · simp only [sanRun, safeFunctionName, hn, hv, hrun]
      have hmap : ((List.range rest.length).map Nat.succ).map
            (fun i => b ++ natChars (v + i)) =
          (List.range rest.length).map (fun i => b ++ natChars (v + 1 + i)) := by
        simp only [List.map_map]
        refine List.map_congr_left ?_
        intro i _
        simp only [Function.comp_apply, Nat.succ_eq_add_one]
        have h2 : v + (i + 1) = v + 1 + i := by omega
        rw [h2]
      simp [List.length_cons, List.range_succ_eq_map, hmap]
    · have : v + 1 + rest.length = v + (rest.length + 1) := by omega
      simpa [this] using hm'

/-- Claim C9: with one shared `knownFuncs` map, the first call producing
candidate base `b` returns it bare and registers counter 2; each
subsequent call producing the same base returns `b` with the current
counter appended and increments the stored counter, so repeated
collisions receive suffixes 2, 3, 4, ... in order. -/
theorem C9_counter_suffixes_in_order (name0 : Str) (names : List Str) (b : Str)
    (m : KnownMap) (h0 : candFunc name0 = some b)
    (hall : ∀ n ∈ names, candFunc n = some b)
    (habs : lookupKnown b m = none) :
    ∃ m', sanRun (name0 :: names) m =
        some (b :: (List.range names.length).map (fun i => b ++ natChars (2 + i)), m') ∧
      lookupKnown b m' = some (2 + names.length) := by
  obtain ⟨m', hrun, hm'⟩ := sanRun_same_base_aux b names (setKnown b 2 m) 2 hall
    (lookupKnown_setKnown_self b 2 m)
  refine ⟨m', ?_, hm'⟩
  simp [sanRun, safeFunctionName, h0, habs, hrun]

/-- Witness for C9 at a concrete input: three calls on base `a` return
`a`, `a2`, `a3` and leave the counter at 4. -/
theorem C9_witness :
    ∃ m', sanRun [['a'], ['a'], ['a']] [] =
        some (['a'] :: (List.range 2).map (fun i => ['a'] ++ natChars (2 + i)), m') ∧
      lookupKnown ['a'] m' = some (2 + 2) := by
  have h := C9_counter_suffixes_in_order ['a'] [['a'], ['a']] ['a'] []
    (by decide) (by decide) rfl
  simpa using h

/-! ### C10: the sanitizer is partial on all-invalid input -/

lemma toLowerAscii_of_invalid (c : Char) (h : isValidFuncChar c = false) :
    toLowerAscii c = c := by
  unfold toLowerAscii
  by_cases hb : 65 ≤ c.toNat ∧ c.toNat ≤ 90
  · exfalso
    have : isValidFuncChar c = true := by
      unfold isValidFuncChar
      simp [hb.1, hb.2]
    simp [this] at h
  · simp only [Bool.and_eq_true, decide_eq_true_eq]
    rw [if_neg]
    intro hc
    exact hb ⟨by simpa using hc.1, by simpa using hc.2⟩

lemma sanitizeScan_all_invalid : ∀ (t : List Char) (flag : Bool),
    (∀ c ∈ t, isValidFuncChar c = false) → sanitizeScan t flag = [] := by
  intro t
  induction t with
  | nil => intro flag _; simp [sanitizeScan]
  | cons c rest ih =>
    intro flag hall
    have hc : isValidFuncChar c = false := hall c (by simp)
    simp [sanitizeScan, hc, ih true (fun x hx => hall x (by simp [hx]))]

/-- Claim C10: on any non-empty input consisting entirely of characters
outside `[a-zA-Z0-9_]`, the filtered scan result is empty and the
subsequent `name[0]` digit check indexes an empty string, so
`safeFunctionName` panics (modelled as `none`) although the input
satisfies the non-empty caller contract. -/
theorem C10_all_invalid_input_panics (name : Str) (m : KnownMap)
    (_hne : name ≠ []) (hall : ∀ c ∈ name, isValidFuncChar c = false) :
    safeFunctionName name m = none := by
  have hscan : sanitizeScan (name.map toLowerAscii) false = [] := by
    apply sanitizeScan_all_invalid
    intro c hc
    simp only [List.mem_map] at hc
    obtain ⟨d, hd, rfl⟩ := hc
    rw [toLowerAscii_of_invalid d (hall d hd)]
    exact hall d hd
  simp [safeFunctionName, candFunc, hscan]

/-- Witness for C10 at the concrete input `-`: the sanitizer panics. -/
theorem C10_witness : safeFunctionName ['-'] [] = none :=
  C10_all_invalid_input_panics ['-'] [] (by decide) (by decide)


/-! ### Concrete filesystems for the scenario claims.  Oracle answers are
written exactly as a POSIX filesystem with the stated contents would
answer the code's `os.Stat` / `Readdir` / `os.Readlink` calls. -/

def pSlash : Str := ['/']

def pRoot : Str := ['/', 'r', 'o', 'o', 't']

def pRootSub : Str := ['/', 'r', 'o', 'o', 't', '/', 's', 'u', 'b']

def nBtxt : Str := ['b', '.', 't', 'x', 't']

def nAtxt : Str := ['a', '.', 't', 'x', 't']

def nSub : Str := ['s', 'u', 'b']

def nCtxt : Str := ['c', '.', 't', 'x', 't']

def nSubCtxt : Str := ['s', 'u', 'b', '/', 'c', '.', 't', 'x', 't']

def pR : Str := ['/', 'r']

def nLoop : Str := ['l', 'o', 'o', 'p']

def pRLoop : Str := ['/', 'r', '/', 'l', 'o', 'o', 'p']

def nRAtxt : Str := ['r', '/', 'a', '.', 't', 'x', 't']

def pRSub : Str := ['/', 'r', '/', 's', 'u', 'b']

def pRLink : Str := ['/', 'r', '/', 'l', 'i', 'n', 'k']

def nLink : Str := ['l', 'i', 'n', 'k']

def nFtxt : Str := ['f', '.', 't', 'x', 't']

def nBsub : Str := ['b', 's', 'u', 'b']

def pRBsub : Str := ['/', 'r', '/', 'b', 's', 'u', 'b']

def nRLinkF : Str := ['r', '/', 'l', 'i', 'n', 'k', '/', 'f', '.', 't', 'x', 't']

def nRSubF : Str := ['r', '/', 's', 'u', 'b', '/', 'f', '.', 't', 'x', 't']

def nRBsubF : Str := ['r', '/', 'b', 's', 'u', 'b', '/', 'f', '.', 't', 'x', 't']

def pRA : Str := ['/', 'r', '/', 'a']

def nA : Str := ['a']

def nAxtxt : Str := ['a', '.', 'x', '.', 't', 'x', 't']

def nAxtxt2 : Str := ['a', '.', 'x', '.', 't', 'x', 't', '2']

def nXtxt : Str := ['x', '.', 't', 'x', 't']

def fAXTxt : Str := ['a', 'X', 'T', 'x', 't']

def fAXTxt2 : Str := ['a', 'X', 'T', 'x', 't', '2']

def nBad : Str := ['b', 'a', 'd']

def nZtxt : Str := ['z', '.', 't', 'x', 't']

def pRBad : Str := ['/', 'r', '/', 'b', 'a', 'd']

def nRZtxt : Str := ['r', '/', 'z', '.', 't', 'x', 't']

def pData : Str := ['/', 'd', 'a', 't', 'a']

def pDataIcons : Str := ['/', 'd', 'a', 't', 'a', '/', 'i', 'c', 'o', 'n', 's']

def nIcons : Str := ['i', 'c', 'o', 'n', 's']

def nXpng : Str := ['x', '.', 'p', 'n', 'g']

def nData : Str := ['d', 'a', 't', 'a']

def nIconsXpng : Str := ['i', 'c', 'o', 'n', 's', '/', 'x', '.', 'p', 'n', 'g']

def nSkipdir : Str := ['s', 'k', 'i', 'p', 'd', 'i', 'r']

def nHidden : Str := ['h', 'i', 'd', 'd', 'e', 'n', '.', 't', 'x', 't']

def pRSkip : Str := ['/', 'r', '/', 's', 'k', 'i', 'p', 'd', 'i', 'r']

def mNoEnt : Str := ['e', 'n', 'o', 'e', 'n', 't']

def mNotDir : Str := ['e', 'n', 'o', 't', 'd', 'i', 'r']

def mInval : Str := ['e', 'i', 'n', 'v', 'a', 'l']

def mAcces : Str := ['e', 'a', 'c', 'c', 'e', 's']

/-- The empty initial discovery state, as `Translate` allocates it. -/
def st0 : St := { toc := [], known := [], visited := [] }

/-- Scenario filesystem of C6: `/root` holds `b.txt`, `a.txt` and a
subdirectory `sub` with `c.txt`; the raw directory listing is returned
out of order, as a filesystem may. -/
def fs6 : FS where
  wd := pSlash
  stat p :=
    if p = pRoot then Except.ok ⟨(pRoot.drop 1), true, false⟩
    else if p = pRootSub then Except.ok ⟨nSub, true, false⟩
    else Except.error (Err.osErr mNoEnt p)
  readdir p :=
    if p = pRoot then Except.ok [⟨nBtxt, false, false⟩, ⟨nAtxt, false, false⟩, ⟨nSub, true, false⟩]
    else if p = pRootSub then Except.ok [⟨nCtxt, false, false⟩]
    else Except.error (Err.osErr mNotDir p)
  readlink p := Except.error (Err.osErr mInval p)

/-- Scenario filesystem of C3: `/r` holds `a.txt` and a symlink `loop`
whose target is the ancestor (root) directory `/r` itself. -/
def fs3 : FS where
  wd := pSlash
  stat p :=
    if p = pR then Except.ok ⟨(pR.drop 1), true, false⟩
    else Except.error (Err.osErr mNoEnt p)
  readdir p :=
    if p = pR then Except.ok [⟨nAtxt, false, false⟩, ⟨nLoop, false, true⟩]
    else Except.error (Err.osErr mNotDir p)
  readlink p :=
    if p = pRLoop then Except.ok pR
    else Except.error (Err.osErr mInval p)

/-- Scenario filesystem of C4: `/r` holds a symlink `link` to the sibling
directory `/r/sub` (which holds `f.txt`); `link` sorts before `sub`, so
the symlink is processed first.  `stat` and `readdir` on `/r/link` answer
as the OS does after resolving the link. -/
def fs4 : FS where
  wd := pSlash
  stat p :=
    if p = pR then Except.ok ⟨(pR.drop 1), true, false⟩
    else if p = pRSub then Except.ok ⟨nSub, true, false⟩
    else if p = pRLink then Except.ok ⟨nLink, true, false⟩
    else Except.error (Err.osErr mNoEnt p)
  readdir p :=
    if p = pR then Except.ok [⟨nLink, false, true⟩, ⟨nSub, true, false⟩]
    else if p = pRSub then Except.ok [⟨nFtxt, false, false⟩]
    else if p = pRLink then Except.ok [⟨nFtxt, false, false⟩]
    else Except.error (Err.osErr mNotDir p)
  readlink p :=
    if p = pRLink then Except.ok pRSub
    else Except.error (Err.osErr mInval p)

/-- Variant of `fs4` in which the target directory `bsub` sorts before
the symlink, so the directory is traversed first. -/
def fs4b : FS where
  wd := pSlash
  stat p :=
    if p = pR then Except.ok ⟨(pR.drop 1), true, false⟩
    else if p = pRBsub then Except.ok ⟨nBsub, true, false⟩
    else Except.error (Err.osErr mNoEnt p)
  readdir p :=
    if p = pR then Except.ok [⟨nLink, false, true⟩, ⟨nBsub, true, false⟩]
    else if p = pRBsub then Except.ok [⟨nFtxt, false, false⟩]
    else Except.error (Err.osErr mNotDir p)
  readlink p :=
    if p = pRLink then Except.ok pRBsub
    else Except.error (Err.osErr mInval p)

/-- Scenario filesystem of C1: `/r` holds a directory `a` with `x.txt`,
and files `a.x.txt` and `a.x.txt2`.  With prefix `/r`, the asset names
`a/x.txt` and `a.x.txt` sanitize to the same base `aXTxt`, and
`a.x.txt2` sanitizes to `aXTxt2`. -/
def fs1 : FS where
  wd := pSlash
  stat p :=
    if p = pR then Except.ok ⟨(pR.drop 1), true, false⟩
    else if p = pRA then Except.ok ⟨nA, true, false⟩
    else Except.error (Err.osErr mNoEnt p)
  readdir p :=
    if p = pR then Except.ok [⟨nAxtxt, false, false⟩, ⟨nA, true, false⟩, ⟨nAxtxt2, false, false⟩]
    else if p = pRA then Except.ok [⟨nXtxt, false, false⟩]
    else Except.error (Err.osErr mNotDir p)
  readlink p := Except.error (Err.osErr mInval p)

/-- Scenario filesystem of C2: `/r` holds a subdirectory `bad` whose
listing fails with an access error, and a file `z.txt`. -/
def fs2 : FS where
  wd := pSlash
  stat p :=
    if p = pR then Except.ok ⟨(pR.drop 1), true, false⟩
    else if p = pRBad then Except.ok ⟨nBad, true, false⟩
    else Except.error (Err.osErr mNoEnt p)
  readdir p :=
    if p = pR then Except.ok [⟨nBad, true, false⟩, ⟨nZtxt, false, false⟩]
    else Except.error (Err.osErr mAcces p)
  readlink p := Except.error (Err.osErr mInval p)

/-- Scenario filesystem of C7: `/data/icons/x.png`, walked with prefix
`/data`. -/
def fs7 : FS where
  wd := pSlash
  stat p :=
    if p = pData then Except.ok ⟨nData, true, false⟩
    else if p = pDataIcons then Except.ok ⟨nIcons, true, false⟩
    else Except.error (Err.osErr mNoEnt p)
  readdir p :=
    if p = pData then Except.ok [⟨nIcons, true, false⟩]
    else if p = pDataIcons then Except.ok [⟨nXpng, false, false⟩]
    else Except.error (Err.osErr mNotDir p)
  readlink p := Except.error (Err.osErr mInval p)

/-- Scenario filesystem for the fatal-empty-name branch of C7: the input
root is the regular file `/data` itself, walked with prefix `/data`, so
the logical name strips to the empty string. -/
def fs7e : FS where
  wd := pSlash
  stat p :=
    if p = pData then Except.ok ⟨nData, false, false⟩
    else Except.error (Err.osErr mNoEnt p)
  readdir p := Except.error (Err.osErr mNotDir p)
  readlink p := Except.error (Err.osErr mInval p)

/-- Scenario filesystem of C5: `/r` holds a directory `skipdir` (with
`hidden.txt`) and a file `z.txt`; the ignore list matches `/r/skipdir`. -/
def fs5 : FS where
  wd := pSlash
  stat p :=
    if p = pR then Except.ok ⟨(pR.drop 1), true, false⟩
    else if p = pRSkip then Except.ok ⟨nSkipdir, true, false⟩
    else Except.error (Err.osErr mNoEnt p)
  readdir p :=
    if p = pR then Except.ok [⟨nSkipdir, true, false⟩, ⟨nZtxt, false, false⟩]
    else if p = pRSkip then Except.ok [⟨nHidden, false, false⟩]
    else Except.error (Err.osErr mNotDir p)
  readlink p := Except.error (Err.osErr mInval p)

/-- Claim C6: for a root with files `b.txt`, `a.txt` and subdirectory
`sub/c.txt`, a non-recursive walk yields exactly `[a.txt, b.txt]` in that
order (entries sorted by name, the subdirectory silently skipped), and a
recursive walk yields `[a.txt, b.txt, sub/c.txt]`. -/
theorem C6_sorted_listing_scenario :
    ((findFiles fs6 [] 5 pRoot pRoot false st0).1.toc.map Asset.Name = [nAtxt, nBtxt]
        ∧ (findFiles fs6 [] 5 pRoot pRoot false st0).2 = none)
      ∧ ((findFiles fs6 [] 5 pRoot pRoot true st0).1.toc.map Asset.Name
            = [nAtxt, nBtxt, nSubCtxt]
        ∧ (findFiles fs6 [] 5 pRoot pRoot true st0).2 = none) := by
  decide

/-- Counterexample to claim C1: in the single discovery run over `fs1`,
the produced `Func` values are `aXTxt`, `aXTxt2`, `aXTxt2` — not pairwise
distinct.  The second value is the suffixed disambiguation of the base
`aXTxt`, and the third is the never-registered base `aXTxt2` returned
bare. -/
theorem C1_counterexample :
    (translateAssets fs1 [] 3 [⟨pR, true⟩] pR).map (fun l => l.map Asset.Func)
        = Except.ok [fAXTxt, fAXTxt2, fAXTxt2]
      ∧ ¬ List.Pairwise (fun a b => a ≠ b) [fAXTxt, fAXTxt2, fAXTxt2] := by
  decide

/-- Counterexample to claim C2: the listing of the subdirectory `/r/bad`
fails inside a recursively visited subdirectory, yet the discovery run
returns a catalog (holding the sibling `z.txt`) instead of the error: the
Go source discards the error result of the recursive `findFiles` call at
line 184. -/
theorem C2_counterexample :
    fs2.readdir pRBad = Except.error (Err.osErr mAcces pRBad)
      ∧ (translateAssets fs2 [] 3 [⟨pR, true⟩] []).map (fun l => l.map Asset.Name)
          = Except.ok [nRZtxt] := by
  decide

/-- Counterexample to claim C4: in `fs4` the directory `/r/sub` is
reached both via the symlink `/r/link` (processed first, target not yet
visited, hence followed) and directly; its file `f.txt` is contributed
twice, once under each path. -/
theorem C4_counterexample :
    (findFiles fs4 [] 3 pR [] true st0).1.toc.map Asset.Name = [nRLinkF, nRSubF]
      ∧ (findFiles fs4 [] 3 pR [] true st0).2 = none := by
  decide

/-- Claim C4, amended: a directory traversed directly *before* a symlink
to it is processed contributes its files only once (the symlink's
resolved target then coincides with the directory's visited entry and the
symlink is skipped); if the symlink is processed first it is followed,
and the directory contributes once more when reached directly — one
contribution per distinct reachable path, with all asset paths
distinct. -/
theorem C4_visited_dedup_order_dependent :
    ((findFiles fs4b [] 3 pR [] true st0).1.toc.map Asset.Name = [nRBsubF]
        ∧ (findFiles fs4b [] 3 pR [] true st0).2 = none)
      ∧ ((findFiles fs4 [] 3 pR [] true st0).1.toc.map Asset.Path
            = [pRLink ++ '/' :: nFtxt, pRSub ++ '/' :: nFtxt]
        ∧ List.Pairwise (fun a b => a ≠ b)
            ((findFiles fs4 [] 3 pR [] true st0).1.toc.map Asset.Path)) := by
  decide


/-! ### C3, C5: entry-level behaviour of the walker loop -/

def fRATxt : Str := ['r', 'A', 'T', 'x', 't']

def pRAtxt : Str := ['/', 'r', '/', 'a', '.', 't', 'x', 't']

def pRZtxtP : Str := ['/', 'r', '/', 'z', '.', 't', 'x', 't']

def pX : Str := ['/', 'x']

/-- The ignore list of the C5 scenario: one pattern matching exactly the
path `/r/skipdir`. -/
def ig5 : List (Str → Bool) := [fun p => p == pRSkip]

/-- The final state of the C3 cycle run: one asset for `a.txt`, the
symlink to the ancestor skipped. -/
def stC3 : St :=
  { toc := [{ Path := pRAtxt, Name := nRAtxt, Func := fRATxt }],
    known := [(fRATxt, 2)], visited := [pR] }

/-- Claim C3: a symlink entry whose resolved absolute target is already
in `visitedPaths` is skipped without recursion (first conjunct); a
followed symlink has its resolved target inserted into `visitedPaths`
before the recursive call, which receives the enlarged set (second
conjunct); and on the concrete filesystem `fs3`, whose symlink `loop`
targets the ancestor directory `/r`, the walk terminates with the same
result at every fuel bound, the cycle never being entered (third
conjunct). -/
theorem C3_symlink_cycle_safe :
    (∀ (fs : FS) (ignore : List (Str → Bool)) (rec : Str → St → St × Option Err)
        (dir dirpath pre : Str) (recursive : Bool) (f : FileInfo)
        (rest : List FileInfo) (st : St) (lp : Str),
      matchesIgnore ignore (joinPath dirpath f.name) = false →
      f.isDir = false → f.isSymlink = true →
      fs.readlink (joinPath dirpath f.name) = Except.ok lp →
      (if isAbsPath lp then lp else absPath fs.wd (dirpath ++ '/' :: lp)) ∈ st.visited →
      ffLoop fs ignore rec dir dirpath pre recursive (f :: rest) st =
        ffLoop fs ignore rec dir dirpath pre recursive rest st)
    ∧ (∀ (fs : FS) (ignore : List (Str → Bool)) (rec : Str → St → St × Option Err)
        (dir dirpath pre : Str) (recursive : Bool) (f : FileInfo)
        (rest : List FileInfo) (st : St) (lp : Str),
      matchesIgnore ignore (joinPath dirpath f.name) = false →
      f.isDir = false → f.isSymlink = true →
      fs.readlink (joinPath dirpath f.name) = Except.ok lp →
      (if isAbsPath lp then lp else absPath fs.wd (dirpath ++ '/' :: lp)) ∉ st.visited →
      ffLoop fs ignore rec dir dirpath pre recursive (f :: rest) st =
        ffLoop fs ignore rec dir dirpath pre recursive rest
          (rec (joinPath dirpath f.name)
            ⟨st.toc, st.known,
              insertPath (if isAbsPath lp then lp else absPath fs.wd (dirpath ++ '/' :: lp))
                st.visited⟩).1)
    ∧ (∀ n : Nat, findFiles fs3 [] (n + 1) pR [] true st0 = (stC3, none)) := by
  refine ⟨?_, ?_, ?_⟩
  · intro fs ignore rec dir dirpath pre recursive f rest st lp hig hdir hsym hrl hmem
    simp only [ffLoop, hig, hdir, hsym, hrl]
    simp [hmem]
  · intro fs ignore rec dir dirpath pre recursive f rest st lp hig hdir hsym hrl hmem
    simp only [ffLoop, hig, hdir, hsym, hrl]
    simp [hmem]
  · intro n
    rfl

/-- Witness for C3 at a concrete input: on `fs3` the `loop` entry's
resolved target `/r` is already visited, and processing it is the same as
dropping it. -/
theorem C3_witness :
    ((if isAbsPath pR then pR else absPath fs3.wd (pR ++ '/' :: pR)) ∈ stC3.visited)
      ∧ ffLoop fs3 [] (fun _ s => (s, none)) pR pR [] true
          [⟨nLoop, false, true⟩] stC3 =
        ffLoop fs3 [] (fun _ s => (s, none)) pR pR [] true [] stC3 :=
  ⟨by decide,
    C3_symlink_cycle_safe.1 fs3 [] (fun _ s => (s, none)) pR pR [] true
      ⟨nLoop, false, true⟩ [] stC3 pR (by decide) rfl rfl (by decide) (by decide)⟩

/-- Claim C5: an entry whose full path matches an ignore pattern is
skipped entirely — processing it equals processing the remaining entries
with an unchanged state, so it contributes no asset and, if a directory
or symlink, is never recursed into (first conjunct); on the concrete
`fs5`, whose directory `/r/skipdir` is ignored, neither the directory nor
its descendant `hidden.txt` appears in the catalog (second conjunct). -/
theorem C5_ignored_entries_skipped :
    (∀ (fs : FS) (ignore : List (Str → Bool)) (rec : Str → St → St × Option Err)
        (dir dirpath pre : Str) (recursive : Bool) (f : FileInfo)
        (rest : List FileInfo) (st : St),
      matchesIgnore ignore (joinPath dirpath f.name) = true →
      ffLoop fs ignore rec dir dirpath pre recursive (f :: rest) st =
        ffLoop fs ignore rec dir dirpath pre recursive rest st)
    ∧ ((findFiles fs5 ig5 3 pR [] true st0).1.toc.map Asset.Name = [nRZtxt]
      ∧ (findFiles fs5 ig5 3 pR [] true st0).2 = none) := by
  constructor
  · intro fs ignore rec dir dirpath pre recursive f rest st hig
    simp only [ffLoop, hig]
    simp
  · constructor
    · decide
    · decide

/-- Witness for C5 at a concrete input: in `fs5` the entry `skipdir` of
`/r` matches the ignore pattern and processing it equals dropping it. -/
theorem C5_witness :
    (matchesIgnore ig5 (joinPath pR nSkipdir) = true)
      ∧ ffLoop fs5 ig5 (fun _ s => (s, none)) pR pR [] true
          [⟨nSkipdir, true, false⟩] st0 =
        ffLoop fs5 ig5 (fun _ s => (s, none)) pR pR [] true [] st0 :=
  ⟨by decide,
    C5_ignored_entries_skipped.1 fs5 ig5 (fun _ s => (s, none)) pR pR [] true
      ⟨nSkipdir, true, false⟩ [] st0 (by decide)⟩

/-! ### C2: error propagation through the Discovery Driver -/

lemma discoverLoop_append_ok (fs : FS) (ignore : List (Str → Bool)) (fuel : Nat)
    (pre : Str) :
    ∀ (good : List InputSpec) (st stM : St),
      discoverLoop fs ignore fuel pre good st = (stM, none) →
      ∀ l, discoverLoop fs ignore fuel pre (good ++ l) st =
        discoverLoop fs ignore fuel pre l stM := by
  intro good
  induction good with
  | nil =>
    intro st stM h l
    simp only [discoverLoop] at h
    injection h with h1 h2
    subst h1
    simp
  | cons i rest ih =>
    intro st stM h l
    simp only [discoverLoop] at h ⊢
    rcases hf : findFiles fs ignore fuel i.path pre i.recursive st with ⟨st', e⟩
    rw [hf] at h
    cases e with
    | none => exact ih st' stM h l
    | some e0 => simp at h

/-- Claim C2, amended: an error reported by the top-level Tree Walker
invocation of some root — after all earlier roots completed without a
reported error — aborts the discovery run: the Discovery Driver returns
exactly that error and no catalog.  (Errors arising inside *recursive*
sub-invocations are discarded by the Go code, which drops the return
values of its recursive `findFiles` calls; see the counterexample.) -/
theorem C2_first_reported_error_aborts (fs : FS) (ignore : List (Str → Bool))
    (fuel : Nat) (pre : Str) (good : List InputSpec) (bad : InputSpec)
    (rest : List InputSpec) (stM st' : St) (e : Err)
    (hgood : discoverLoop fs ignore fuel pre good st0 = (stM, none))
    (hbad : findFiles fs ignore fuel bad.path pre bad.recursive stM = (st', some e)) :
    translateAssets fs ignore fuel (good ++ bad :: rest) pre = Except.error e := by
  unfold translateAssets
  rw [show ({ toc := [], known := [], visited := [] } : St) = st0 from rfl,
    discoverLoop_append_ok fs ignore fuel pre good st0 stM hgood]
  simp only [discoverLoop, hbad]

/-- Witness for C2 at a concrete input: the root `/x` does not exist in
`fs2`, its `stat` fails, and the driver surfaces exactly that error. -/
theorem C2_witness :
    translateAssets fs2 [] 3 ([] ++ ⟨pX, true⟩ :: []) [] =
      Except.error (Err.osErr mNoEnt pX) :=
  C2_first_reported_error_aborts fs2 [] 3 [] [] ⟨pX, true⟩ [] st0 st0
    (Err.osErr mNoEnt pX) rfl (by decide)


/-! ### C7: logical names are non-empty and never begin with a slash -/

/-- No two consecutive slashes occur in the string. -/
def noDS : List Char → Bool
  | [] => true
  | [_] => true
  | a :: b :: rest => !(a = '/' && b = '/') && noDS (b :: rest)

lemma noDS_tail (a : Char) (l : List Char) (h : noDS (a :: l) = true) : noDS l = true := by
  cases l with
  | nil => rfl
  | cons b rest =>
    simp only [noDS, Bool.and_eq_true] at h
    exact h.2

lemma noDS_drop (k : Nat) (l : List Char) (h : noDS l = true) :
    noDS (l.drop k) = true := by
  induction k generalizing l with
  | zero => simpa using h
  | succ k ih =>
    cases l with
    | nil => simpa using h
    | cons a rest => exact ih rest (noDS_tail a rest h)

lemma noDS_of_slashFree (l : List Char) (h : ∀ x ∈ l, x ≠ '/') : noDS l = true := by
  induction l with
  | nil => rfl
  | cons a rest ih =>
    cases rest with
    | nil => rfl
    | cons b t =>
      have ha : a ≠ '/' := h a (by simp)
      simp only [noDS, Bool.and_eq_true, Bool.not_eq_true']
      exact ⟨by simp [ha], ih (fun x hx => h x (by simp [hx]))⟩

lemma noDS_append_slashFree (xs ys : List Char) (hxs : ∀ x ∈ xs, x ≠ '/')
    (hys : noDS ys = true) : noDS (xs ++ ys) = true := by
  induction xs with
  | nil => simpa using hys
  | cons a rest ih =>
    have ha : a ≠ '/' := hxs a (by simp)
    have hrest := ih (fun x hx => hxs x (by simp [hx]))
    rw [List.cons_append]
    cases hres : rest ++ ys with
    | nil => rfl
    | cons b t =>
      rw [hres] at hrest
      simp only [noDS, Bool.and_eq_true, Bool.not_eq_true']
      constructor
      · simp [ha]
      · exact hrest

/-- Well-formedness of a component list: every component is non-empty and
slash-free. -/
def CompsOk (comps : List Str) : Prop :=
  ∀ c ∈ comps, c ≠ [] ∧ ∀ x ∈ c, x ≠ '/'

lemma joinComps_ok (comps : List Str) (h : CompsOk comps) :
    noDS (joinComps comps) = true ∧ (joinComps comps).head? ≠ some '/' := by
  induction comps with
  | nil => simp [joinComps, noDS]
  | cons c rest ih =>
    obtain ⟨hc, hcsf⟩ := h c (by simp)
    have hrec := ih (fun x hx => h x (by simp [hx]))
    cases rest with
    | nil =>
      refine ⟨noDS_of_slashFree c hcsf, ?_⟩
      cases c with
      | nil => simp [joinComps]
      | cons x t =>
        have hx : x ≠ '/' := hcsf x (by simp)
        simp [joinComps, hx]
    | cons d rest2 =>
      constructor
      · show noDS (c ++ '/' :: joinComps (d :: rest2)) = true
        apply noDS_append_slashFree c _ hcsf
        cases hjq : joinComps (d :: rest2) with
        | nil => rfl
        | cons y t =>
          have hy := hrec.2
          rw [hjq] at hy
          simp only [List.head?_cons] at hy
          have hy2 : y ≠ '/' := fun hcy => hy (by rw [hcy])
          have hj := hrec.1
          rw [hjq] at hj
          simp only [noDS, Bool.and_eq_true, Bool.not_eq_true']
          constructor
          · simp [hy2]
          · exact hj
      · show (c ++ '/' :: joinComps (d :: rest2)).head? ≠ some '/'
        cases c with
        | nil => exact absurd rfl hc
        | cons x t =>
          have hx : x ≠ '/' := hcsf x (by simp)
          simp [hx]

lemma splitSlash_slashFree (p : Str) : ∀ piece ∈ splitSlash p, ∀ x ∈ piece, x ≠ '/' := by
  induction p with
  | nil =>
    intro piece hp
    simp only [splitSlash, List.mem_singleton] at hp
    subst hp
    simp
  | cons c rest ih =>
    intro piece hp
    by_cases hc : c = '/'
    · simp only [splitSlash, hc, if_true, List.mem_cons] at hp
      rcases hp with hp1 | hp2
      · subst hp1
        simp
      · exact ih piece hp2
    · simp only [splitSlash, if_neg hc] at hp
      cases hsp : splitSlash rest with
      | nil =>
        rw [hsp] at hp
        simp at hp
        subst hp
        intro x hx
        simp only [List.mem_singleton] at hx
        subst hx
        exact hc
      | cons h0 t0 =>
        rw [hsp] at hp
        simp only [List.mem_cons] at hp
        rcases hp with rfl | hp2
        · intro x hx
          rcases List.mem_cons.1 hx with rfl | hx2
          · exact hc
          · exact ih h0 (by rw [hsp]; exact List.mem_cons_self h0 t0) x hx2
        · exact ih piece (by rw [hsp]; exact List.mem_cons_of_mem h0 hp2)

lemma cleanComps_ok (abs : Bool) :
    ∀ (l : List Str) (acc : List Str), CompsOk acc →
      (∀ piece ∈ l, ∀ x ∈ piece, x ≠ '/') →
      CompsOk (cleanComps abs acc l) := by
  intro l
  induction l with
  | nil =>
    intro acc hacc _
    simpa [cleanComps] using hacc
  | cons c rest ih =>
    intro acc hacc hl
    have hrest : ∀ piece ∈ rest, ∀ x ∈ piece, x ≠ '/' := fun q hq => hl q (by simp [hq])
    have hdrop : CompsOk acc.dropLast := fun q hq => hacc q (List.dropLast_subset _ hq)
    have hcsf : ∀ x ∈ c, x ≠ '/' := hl c (by simp)
    by_cases h1 : c = [] ∨ c = ['.']
    · simpa [cleanComps, h1] using ih acc hacc hrest
    · have hcne : c ≠ [] := fun hce => h1 (Or.inl hce)
      have happ : CompsOk (acc ++ [c]) := by
        intro q hq
        rcases List.mem_append.1 hq with hq | hq
        · exact hacc q hq
        · simp only [List.mem_singleton] at hq
          subst hq
          exact ⟨hcne, hcsf⟩
      by_cases h2 : c = ['.', '.']
      · cases abs with
        | true => simpa [cleanComps, h1, h2] using ih acc.dropLast hdrop hrest
        | false =>
          by_cases h4 : acc ≠ [] ∧ acc.getLast? ≠ some ['.', '.']
          · simpa [cleanComps, h1, h2, h4] using ih acc.dropLast hdrop hrest
          · simpa [cleanComps, h1, h2, h4] using ih (acc ++ [c]) happ hrest
      · simpa [cleanComps, h1, h2] using ih (acc ++ [c]) happ hrest

lemma joinComps_ne_nil (comps : List Str) (hne : comps ≠ []) (h : CompsOk comps) :
    joinComps comps ≠ [] := by
  cases comps with
  | nil => exact absurd rfl hne
  | cons c rest =>
    obtain ⟨hc, -⟩ := h c (by simp)
    cases rest with
    | nil => simpa [joinComps] using hc
    | cons d rest2 =>
      show c ++ '/' :: joinComps (d :: rest2) ≠ []
      simp

lemma renderPath_ok (abs : Bool) (comps : List Str) (h : CompsOk comps) :
    noDS (renderPath abs comps) = true ∧ renderPath abs comps ≠ [] := by
  obtain ⟨hj, hjh⟩ := joinComps_ok comps h
  cases abs with
  | true =>
    have hshow : renderPath true comps = '/' :: joinComps comps := by
      simp [renderPath]
    rw [hshow]
    constructor
    · cases hjq : joinComps comps with
      | nil => rfl
      | cons y t =>
        rw [hjq] at hj hjh
        simp only [List.head?_cons] at hjh
        have hy : y ≠ '/' := fun hcy => hjh (by rw [hcy])
        simp only [noDS, Bool.and_eq_true, Bool.not_eq_true']
        constructor
        · simp [hy]
        · exact hj
    · simp
  | false =>
    by_cases hc : comps = []
    · simp [renderPath, hc, noDS]
    · have hshow : renderPath false comps = joinComps comps := by
        simp [renderPath, hc]
      rw [hshow]
      exact ⟨hj, joinComps_ne_nil comps hc h⟩

lemma cleanPath_ok (p : Str) : noDS (cleanPath p) = true ∧ cleanPath p ≠ [] := by
  by_cases hp : p = []
  · simp [cleanPath, hp, noDS]
  · have hcomps : CompsOk (cleanComps (isAbsPath p) [] (splitSlash p)) :=
      cleanComps_ok _ (splitSlash p) []
        (fun c hc => absurd hc (List.not_mem_nil c)) (splitSlash_slashFree p)
    have hres := renderPath_ok (isAbsPath p) _ hcomps
    simpa [cleanPath, hp] using hres


/-! ### The walker preserves name well-formedness -/

/-- The logical-name well-formedness asserted by claim C7. -/
def nameOk (a : Asset) : Prop := a.Name ≠ [] ∧ a.Name.head? ≠ some '/'

lemma joinPath_noDS (a b : Str) : noDS (joinPath a b) = true := by
  unfold joinPath
  by_cases ha : a = []
  · by_cases hb : b = []
    · simp [ha, hb, noDS]
    · simp [ha, hb, (cleanPath_ok b).1]
  · by_cases hb : b = []
    · simp [ha, hb, (cleanPath_ok a).1]
    · simp [ha, hb, (cleanPath_ok (a ++ '/' :: b)).1]

lemma stripLeadSlash_ok (t : Str) (h : noDS t = true) :
    (stripLeadSlash t).head? ≠ some '/' := by
  cases t with
  | nil => simp [stripLeadSlash]
  | cons c r =>
    by_cases hcs : c = '/'
    · subst hcs
      simp only [stripLeadSlash, if_pos rfl]
      cases r with
      | nil => simp
      | cons d t2 =>
        simp only [noDS, Bool.and_eq_true, Bool.not_eq_true'] at h
        have hd : d ≠ '/' := by
          intro hde
          subst hde
          simpa using h.1
        simp [hd]
    · simp [stripLeadSlash, hcs]

lemma ffLoop_nameOk (fs : FS) (ignore : List (Str → Bool))
    (rec : Str → St → St × Option Err) (dir dirpath pre : Str) (recursive : Bool)
    (hrec : ∀ d st a, a ∈ ((rec d st).1).toc → a ∈ st.toc ∨ nameOk a) :
    ∀ (l : List FileInfo) (st : St) (a : Asset),
      a ∈ ((ffLoop fs ignore rec dir dirpath pre recursive l st).1).toc →
      a ∈ st.toc ∨ nameOk a := by
  intro l
  induction l with
  | nil =>
    intro st a h
    exact Or.inl h
  | cons f rest ih =>
    intro st a h
    simp only [ffLoop] at h
    repeat' split at h
    all_goals first
      | exact Or.inl h
      | exact ih st a h
      | exact (ih _ a h).elim (fun hmem => (hrec _ _ a hmem).elim Or.inl Or.inr) Or.inr
      | refine (ih _ a h).elim (fun hmem => ?_) Or.inr
    all_goals refine (List.mem_append.1 hmem).elim Or.inl (fun hm3 => ?_)
    all_goals rw [List.mem_singleton] at hm3
    all_goals subst hm3
    all_goals refine Or.inr ⟨by assumption, ?_⟩
    all_goals apply stripLeadSlash_ok
    all_goals first
      | exact noDS_drop _ _ (joinPath_noDS _ _)
      | exact joinPath_noDS _ _

lemma findFiles_nameOk (fs : FS) (ignore : List (Str → Bool)) :
    ∀ (fuel : Nat) (dir pre : Str) (recursive : Bool) (st : St) (a : Asset),
      a ∈ ((findFiles fs ignore fuel dir pre recursive st).1).toc →
      a ∈ st.toc ∨ nameOk a := by
  intro fuel
  induction fuel with
  | zero =>
    intro dir pre recursive st a h
    exact Or.inl h
  | succ fuel ih =>
    intro dir pre recursive st a h
    simp only [findFiles] at h
    repeat' split at h
    all_goals first
      | exact Or.inl h
      | exact ((ffLoop_nameOk fs ignore _ _ _ _ _
          (fun d st2 a2 h2 => ih d _ _ st2 a2 h2) _ _ a h).imp (fun hm => hm) id)

def fATxt : Str := ['a', 'T', 'x', 't']

def pRootAtxt : Str := ['/', 'r', 'o', 'o', 't', '/', 'a', '.', 't', 'x', 't']

/-- The `a.txt` asset discovered in the C6/C7 witness run. -/
def a7 : Asset := { Path := pRootAtxt, Name := nAtxt, Func := fATxt }

/-- Claim C7: every asset the walker appends has a non-empty `Name` that
does not begin with `/` (first conjunct, for arbitrary filesystems,
ignore lists, fuel, roots, prefixes and starting states); with prefix
`/data` the file `/data/icons/x.png` is named `icons/x.png` (second
conjunct); and a name that strips to the empty string is a fatal
`invalidFile` error identifying the offending path (third conjunct,
where the input root `/data` is itself a file and strips to nothing). -/
theorem C7_names_normalized :
    (∀ (fs : FS) (ignore : List (Str → Bool)) (fuel : Nat) (dir pre : Str)
        (recursive : Bool) (st : St) (a : Asset),
      a ∈ ((findFiles fs ignore fuel dir pre recursive st).1).toc →
      a ∈ st.toc ∨ (a.Name ≠ [] ∧ a.Name.head? ≠ some '/'))
    ∧ ((findFiles fs7 [] 3 pData pData true st0).1.toc.map Asset.Name = [nIconsXpng]
      ∧ (findFiles fs7 [] 3 pData pData true st0).2 = none)
    ∧ findFiles fs7e [] 3 pData pData true st0 = (st0, some (Err.invalidFile pData)) := by
  refine ⟨?_, by decide, by decide⟩
  exact fun fs ignore fuel dir pre recursive st a h =>
    findFiles_nameOk fs ignore fuel dir pre recursive st a h

/-- Witness for C7 at a concrete input: the asset discovered for
`/root/a.txt` in the C6 filesystem is in the catalog, and its name is
non-empty and slash-free. -/
theorem C7_witness :
    (a7 ∈ ((findFiles fs6 [] 5 pRoot pRoot true st0).1).toc)
      ∧ (a7 ∈ st0.toc ∨ (a7.Name ≠ [] ∧ a7.Name.head? ≠ some '/')) :=
  ⟨by decide, C7_names_normalized.1 fs6 [] 5 pRoot pRoot true st0 a7 (by decide)⟩


/-! ### C1: identifier uniqueness — counter rendering facts -/

/-- Parse a little-endian decimal digit list back to a number. -/
def parseRevDigits : List Char → Nat
  | [] => 0
  | c :: rest => (c.toNat - 48) + 10 * parseRevDigits rest

lemma digitChar_toNat : ∀ d : Nat, d < 10 → (Nat.digitChar d).toNat = 48 + d := by decide

lemma digitChar_isDigit : ∀ d : Nat, d < 10 → isDigitChar (Nat.digitChar d) = true := by
  decide

lemma parseRev_natCharsAux : ∀ (fuel n : Nat), n ≤ fuel →
    parseRevDigits (natCharsAux fuel n) = n := by
  intro fuel
  induction fuel with
  | zero =>
    intro n hn
    have hn0 : n = 0 := Nat.le_zero.1 hn
    subst hn0
    rfl
  | succ fuel ih =>
    intro n hn
    by_cases h0 : n = 0
    · subst h0
      rfl
    · have hlt : n / 10 < n := Nat.div_lt_self (Nat.pos_of_ne_zero h0) (by omega)
      have hdiv : n / 10 ≤ fuel := by omega
      simp only [natCharsAux, if_neg h0, parseRevDigits]
      rw [ih (n / 10) hdiv, digitChar_toNat (n % 10) (Nat.mod_lt n (by omega))]
      omega

lemma natChars_inj (m n : Nat) (hm : 0 < m) (hn : 0 < n)
    (h : natChars m = natChars n) : m = n := by
  unfold natChars at h
  rw [if_neg (by omega), if_neg (by omega)] at h
  have h2 : natCharsAux m m = natCharsAux n n := by
    have := congrArg List.reverse h
    simpa using this
  have hm2 := parseRev_natCharsAux m m le_rfl
  have hn2 := parseRev_natCharsAux n n le_rfl
  rw [← hm2, ← hn2, h2]

lemma natCharsAux_digits : ∀ (fuel n : Nat), ∀ c ∈ natCharsAux fuel n,
    isDigitChar c = true := by
  intro fuel
  induction fuel with
  | zero => intro n c hc; simp [natCharsAux] at hc
  | succ fuel ih =>
    intro n c hc
    by_cases h0 : n = 0
    · subst h0; simp [natCharsAux] at hc
    · simp only [natCharsAux, if_neg h0, List.mem_cons] at hc
      rcases hc with rfl | hc
      · exact digitChar_isDigit (n % 10) (Nat.mod_lt n (by omega))
      · exact ih (n / 10) c hc

lemma natChars_digits (n : Nat) : ∀ c ∈ natChars n, isDigitChar c = true := by
  intro c hc
  unfold natChars at hc
  by_cases h0 : n = 0
  · rw [if_pos h0] at hc
    simp only [List.mem_singleton] at hc
    subst hc
    decide
  · rw [if_neg h0, List.mem_reverse] at hc
    exact natCharsAux_digits n n c hc

lemma natChars_ne_nil (n : Nat) : natChars n ≠ [] := by
  unfold natChars
  by_cases h0 : n = 0
  · simp [h0]
  · rw [if_neg h0]
    intro hrev
    rw [List.reverse_eq_nil_iff] at hrev
    cases n with
    | zero => exact absurd rfl h0
    | succ k =>
      simp only [natCharsAux, if_neg h0] at hrev
      exact absurd hrev (List.cons_ne_nil _ _)

/-! ### C1: splitting identifiers into base and digit suffix -/

/-- A base is acceptable for the amended uniqueness statement when it is
non-empty and does not end in a decimal digit. -/
def goodBase (b : Str) : Prop :=
  b ≠ [] ∧ ∀ c, b.getLast? = some c → isDigitChar c = false

lemma endsDigit_append (b X : Str) (hX : X ≠ [])
    (hd : ∀ c ∈ X, isDigitChar c = true) :
    ∃ c, (b ++ X).getLast? = some c ∧ isDigitChar c = true := by
  cases hc : X.getLast? with
  | none => exact absurd (List.getLast?_eq_none_iff.1 hc) hX
  | some c =>
    refine ⟨c, ?_, hd c (List.mem_of_getLast?_eq_some hc)⟩
    rw [List.getLast?_append, hc]
    rfl

lemma goodBase_ne_endsDigit (g s : Str) (hg : goodBase g)
    (hs : ∃ c, s.getLast? = some c ∧ isDigitChar c = true) : g ≠ s := by
  intro he
  subst he
  obtain ⟨c, hc, hd⟩ := hs
  rw [hg.2 c hc] at hd
  exact Bool.false_ne_true hd

lemma digit_head_split : ∀ (u u' v v' : List Char),
    (∀ c ∈ u, isDigitChar c = true) → (∀ c ∈ u', isDigitChar c = true) →
    (∀ c, v.head? = some c → isDigitChar c = false) →
    (∀ c, v'.head? = some c → isDigitChar c = false) →
    u ++ v = u' ++ v' → u = u' ∧ v = v' := by
  intro u
  induction u with
  | nil =>
    intro u' v v' _ hu' hv _ heq
    cases u' with
    | nil => exact ⟨rfl, heq⟩
    | cons d t =>
      exfalso
      have hd : isDigitChar d = true := hu' d (by simp)
      have hv0 : v = d :: (t ++ v') := by simpa using heq
      have hvd : v.head? = some d := by rw [hv0]; rfl
      rw [hv d hvd] at hd
      exact Bool.false_ne_true hd
  | cons a u ih =>
    intro u' v v' hu hu' hv hv' heq
    cases u' with
    | nil =>
      exfalso
      have ha : isDigitChar a = true := hu a (by simp)
      have hv0 : v' = a :: (u ++ v) := by simpa using heq.symm
      have hva : v'.head? = some a := by rw [hv0]; rfl
      rw [hv' a hva] at ha
      exact Bool.false_ne_true ha
    | cons b t =>
      simp only [List.cons_append, List.cons.injEq] at heq
      obtain ⟨rfl, heq2⟩ := heq
      obtain ⟨h1, h2⟩ := ih t v v' (fun c hc => hu c (by simp [hc]))
        (fun c hc => hu' c (by simp [hc])) hv hv' heq2
      exact ⟨by rw [h1], h2⟩

lemma digit_suffix_unique (b b2 X Y : Str) (hb : goodBase b) (hb2 : goodBase b2)
    (hX : ∀ c ∈ X, isDigitChar c = true) (hY : ∀ c ∈ Y, isDigitChar c = true)
    (h : b ++ X = b2 ++ Y) : b = b2 ∧ X = Y := by
  have hrev : X.reverse ++ b.reverse = Y.reverse ++ b2.reverse := by
    have h2 := congrArg List.reverse h
    simpa [List.reverse_append] using h2
  have hbrev : ∀ c, b.reverse.head? = some c → isDigitChar c = false := by
    intro c hc
    rw [List.head?_reverse] at hc
    exact hb.2 c hc
  have hb2rev : ∀ c, b2.reverse.head? = some c → isDigitChar c = false := by
    intro c hc
    rw [List.head?_reverse] at hc
    exact hb2.2 c hc
  obtain ⟨h1, h2⟩ := digit_head_split X.reverse Y.reverse b.reverse b2.reverse
    (fun c hc => hX c (List.mem_reverse.1 hc)) (fun c hc => hY c (List.mem_reverse.1 hc))
    hbrev hb2rev hrev
  constructor
  · have h3 := congrArg List.reverse h2
    simpa using h3
  · have h3 := congrArg List.reverse h1
    simpa using h3

/-! ### C1: the run invariant of the knownFuncs map -/

/-- Accounting of an issued identifier by the map: either a registered
base returned bare, or a registered base carrying a suffix strictly below
the stored counter. -/
def IssuedF (known : KnownMap) (f : Str) : Prop :=
  (∃ v, lookupKnown f known = some v) ∨
  (∃ b k v, lookupKnown b known = some v ∧ 2 ≤ k ∧ k < v ∧ f = b ++ natChars k)

/-- The map stores only good bases with counters at least 2. -/
def MapOk (known : KnownMap) : Prop :=
  ∀ b v, lookupKnown b known = some v → 2 ≤ v ∧ goodBase b

/-- The run invariant: a well-formed map, every catalog `Func` accounted
for by the map, and all catalog `Func` values pairwise distinct. -/
def Inv (toc : List Asset) (known : KnownMap) : Prop :=
  MapOk known ∧ (∀ f ∈ toc.map Asset.Func, IssuedF known f) ∧
    List.Pairwise (fun a b => a ≠ b) (toc.map Asset.Func)

lemma issued_endsDigit (b : Str) (k : Nat) :
    ∃ c, (b ++ natChars k).getLast? = some c ∧ isDigitChar c = true :=
  endsDigit_append b (natChars k) (natChars_ne_nil k) (natChars_digits k)

lemma safeFunctionName_step (name b fn : Str) (known known2 : KnownMap)
    (hmok : MapOk known) (hcand : candFunc name = some b) (hgood : goodBase b)
    (hsan : safeFunctionName name known = some (fn, known2)) :
    MapOk known2 ∧ (∀ g, IssuedF known g → IssuedF known2 g) ∧ IssuedF known2 fn ∧
      (∀ g, IssuedF known g → g ≠ fn) := by
  simp only [safeFunctionName, hcand] at hsan
  cases hlk : lookupKnown b known with
  | none =>
    simp only [hlk, Option.some.injEq, Prod.mk.injEq] at hsan
    obtain ⟨hfn, hkn⟩ := hsan
    subst hfn
    subst hkn
    refine ⟨?_, ?_, ?_, ?_⟩
    · intro b' v' hlk'
      by_cases hbb : b' = b
      · subst hbb
        rw [lookupKnown_setKnown_self] at hlk'
        injection hlk' with hv
        subst hv
        exact ⟨le_refl 2, hgood⟩
      · rw [lookupKnown_setKnown_ne b b' 2 known hbb] at hlk'
        exact hmok b' v' hlk'
    · intro g hg
      rcases hg with ⟨v, hv⟩ | ⟨b', k, v, hb', hk2, hkv, rfl⟩
      · have hgb : g ≠ b := by
          intro he
          rw [he, hlk] at hv
          cases hv
        exact Or.inl ⟨v, by rw [lookupKnown_setKnown_ne b g 2 known hgb]; exact hv⟩
      · have hbb : b' ≠ b := by
          intro he
          rw [he, hlk] at hb'
          cases hb'
        exact Or.inr ⟨b', k, v,
          by rw [lookupKnown_setKnown_ne b b' 2 known hbb]; exact hb', hk2, hkv, rfl⟩
    · exact Or.inl ⟨2, lookupKnown_setKnown_self b 2 known⟩
    · intro g hg
      rcases hg with ⟨v, hv⟩ | ⟨b', k, v, hb', hk2, hkv, rfl⟩
      · intro he
        rw [he, hlk] at hv
        cases hv
      · exact Ne.symm (goodBase_ne_endsDigit b (b' ++ natChars k) hgood
          (issued_endsDigit b' k))
  | some v =>
    simp only [hlk, Option.some.injEq, Prod.mk.injEq] at hsan
    obtain ⟨hfn, hkn⟩ := hsan
    subst hkn
    obtain ⟨hv2, -⟩ := hmok b v hlk
    refine ⟨?_, ?_, ?_, ?_⟩
    · intro b' v' hlk'
      by_cases hbb : b' = b
      · subst hbb
        rw [lookupKnown_setKnown_self] at hlk'
        injection hlk' with hveq
        subst hveq
        exact ⟨by omega, hgood⟩
      · rw [lookupKnown_setKnown_ne b b' (v + 1) known hbb] at hlk'
        exact hmok b' v' hlk'
    · intro g hg
      rcases hg with ⟨w, hw⟩ | ⟨b', k, w, hb', hk2, hkw, rfl⟩
      · by_cases hgb : g = b
        · subst hgb
          exact Or.inl ⟨v + 1, lookupKnown_setKnown_self g (v + 1) known⟩
        · exact Or.inl ⟨w, by rw [lookupKnown_setKnown_ne b g (v + 1) known hgb]; exact hw⟩
      · by_cases hbb : b' = b
        · have hwv : w = v := by
            rw [hbb, hlk] at hb'
            injection hb' with hvw
            omega
          refine Or.inr ⟨b', k, v + 1, ?_, hk2, by omega, rfl⟩
          rw [hbb]
          exact lookupKnown_setKnown_self b (v + 1) known
        · exact Or.inr ⟨b', k, w,
            by rw [lookupKnown_setKnown_ne b b' (v + 1) known hbb]; exact hb', hk2, hkw, rfl⟩
    · subst hfn
      exact Or.inr ⟨b, v, v + 1,
        lookupKnown_setKnown_self b (v + 1) known, hv2, by omega, rfl⟩
    · intro g hg
      subst hfn
      rcases hg with ⟨w, hw⟩ | ⟨b', k, w, hb', hk2, hkw, rfl⟩
      · obtain ⟨-, hggood⟩ := hmok g w hw
        exact goodBase_ne_endsDigit g (b ++ natChars v) hggood
          (issued_endsDigit b v)
      · intro he
        obtain ⟨-, hbgood2⟩ := hmok b' w hb'
        obtain ⟨hbeq, hsfx⟩ := digit_suffix_unique b' b (natChars k) (natChars v)
          hbgood2 hgood (natChars_digits k) (natChars_digits v) he
        have hwv : w = v := by
          rw [hbeq, hlk] at hb'
          injection hb' with hvw
          omega
        have hkv : k = v := natChars_inj k v (by omega) (by omega) hsfx
        omega

/-- The per-asset hypothesis of the amended claim C1: the sanitized base
of the asset's name is non-empty and does not end in a digit. -/
def assetOk (a : Asset) : Prop := ∀ b, candFunc a.Name = some b → goodBase b

lemma Inv_append (toc : List Asset) (known known2 : KnownMap) (pth name fn : Str)
    (hinv : Inv toc known)
    (hgood : ∀ b, candFunc name = some b → goodBase b)
    (hsan : safeFunctionName name known = some (fn, known2)) :
    Inv (toc ++ [{ Path := pth, Name := name, Func := fn }]) known2 := by
  obtain ⟨hmok, hiss, hpw⟩ := hinv
  cases hcand : candFunc name with
  | none => simp [safeFunctionName, hcand] at hsan
  | some b =>
    obtain ⟨hm2, hpres, hissued, hfresh⟩ :=
      safeFunctionName_step name b fn known known2 hmok hcand (hgood b hcand) hsan
    refine ⟨hm2, ?_, ?_⟩
    · intro g hg
      rw [List.map_append, List.mem_append] at hg
      rcases hg with hg | hg
      · exact hpres g (hiss g hg)
      · simp only [List.map_cons, List.map_nil, List.mem_singleton] at hg
        subst hg
        exact hissued
    · rw [List.map_append]
      rw [List.pairwise_append]
      refine ⟨hpw, by simp, ?_⟩
      intro x hx y hy
      simp only [List.map_cons, List.map_nil, List.mem_singleton] at hy
      subst hy
      exact hfresh x (hiss x hx)


/-! ### Step equations for the walker loop -/

lemma ffLoop_eq_ignore (fs : FS) (ignore : List (Str → Bool))
    (rec : Str → St → St × Option Err) (dir dirpath pre : Str) (recursive : Bool)
    (f : FileInfo) (rest : List FileInfo) (st : St)
    (hig : matchesIgnore ignore (joinPath dirpath f.name) = true) :
    ffLoop fs ignore rec dir dirpath pre recursive (f :: rest) st =
      ffLoop fs ignore rec dir dirpath pre recursive rest st := by
  simp [ffLoop, hig]

lemma ffLoop_eq_dir_rec (fs : FS) (ignore : List (Str → Bool))
    (rec : Str → St → St × Option Err) (dir dirpath pre : Str) (recursive : Bool)
    (f : FileInfo) (rest : List FileInfo) (st : St)
    (hig : matchesIgnore ignore (joinPath dirpath f.name) = false)
    (hdir : f.isDir = true) (hrecv : recursive = true) :
    ffLoop fs ignore rec dir dirpath pre recursive (f :: rest) st =
      ffLoop fs ignore rec dir dirpath pre recursive rest
        (rec (joinPath dir f.name)
          ⟨st.toc, st.known, insertPath (joinPath dirpath f.name) st.visited⟩).1 := by
  simp [ffLoop, hig, hdir, hrecv]

lemma ffLoop_eq_dir_norec (fs : FS) (ignore : List (Str → Bool))
    (rec : Str → St → St × Option Err) (dir dirpath pre : Str) (recursive : Bool)
    (f : FileInfo) (rest : List FileInfo) (st : St)
    (hig : matchesIgnore ignore (joinPath dirpath f.name) = false)
    (hdir : f.isDir = true) (hrecv : recursive = false) :
    ffLoop fs ignore rec dir dirpath pre recursive (f :: rest) st =
      ffLoop fs ignore rec dir dirpath pre recursive rest st := by
  simp [ffLoop, hig, hdir, hrecv]

lemma ffLoop_eq_symlink_err (fs : FS) (ignore : List (Str → Bool))
    (rec : Str → St → St × Option Err) (dir dirpath pre : Str) (recursive : Bool)
    (f : FileInfo) (rest : List FileInfo) (st : St) (e : Err)
    (hig : matchesIgnore ignore (joinPath dirpath f.name) = false)
    (hdir : f.isDir = false) (hsym : f.isSymlink = true)
    (hrl : fs.readlink (joinPath dirpath f.name) = Except.error e) :
    ffLoop fs ignore rec dir dirpath pre recursive (f :: rest) st = (st, some e) := by
  simp [ffLoop, hig, hdir, hsym, hrl]

lemma ffLoop_eq_symlink_skip (fs : FS) (ignore : List (Str → Bool))
    (rec : Str → St → St × Option Err) (dir dirpath pre : Str) (recursive : Bool)
    (f : FileInfo) (rest : List FileInfo) (st : St) (lp : Str)
    (hig : matchesIgnore ignore (joinPath dirpath f.name) = false)
    (hdir : f.isDir = false) (hsym : f.isSymlink = true)
    (hrl : fs.readlink (joinPath dirpath f.name) = Except.ok lp)
    (hmem : (if isAbsPath lp then lp else absPath fs.wd (dirpath ++ '/' :: lp)) ∈ st.visited) :
    ffLoop fs ignore rec dir dirpath pre recursive (f :: rest) st =
      ffLoop fs ignore rec dir dirpath pre recursive rest st := by
  simp only [ffLoop, hig, hdir, hsym, hrl]
  simp [hmem]

lemma ffLoop_eq_symlink_follow (fs : FS) (ignore : List (Str → Bool))
    (rec : Str → St → St × Option Err) (dir dirpath pre : Str) (recursive : Bool)
    (f : FileInfo) (rest : List FileInfo) (st : St) (lp : Str)
    (hig : matchesIgnore ignore (joinPath dirpath f.name) = false)
    (hdir : f.isDir = false) (hsym : f.isSymlink = true)
    (hrl : fs.readlink (joinPath dirpath f.name) = Except.ok lp)
    (hmem : (if isAbsPath lp then lp else absPath fs.wd (dirpath ++ '/' :: lp)) ∉ st.visited) :
    ffLoop fs ignore rec dir dirpath pre recursive (f :: rest) st =
      ffLoop fs ignore rec dir dirpath pre recursive rest
        (rec (joinPath dirpath f.name)
          ⟨st.toc, st.known,
            insertPath (if isAbsPath lp then lp else absPath fs.wd (dirpath ++ '/' :: lp))
              st.visited⟩).1 := by
  simp only [ffLoop, hig, hdir, hsym, hrl]
  simp [hmem]

lemma ffLoop_eq_file_empty (fs : FS) (ignore : List (Str → Bool))
    (rec : Str → St → St × Option Err) (dir dirpath pre : Str) (recursive : Bool)
    (f : FileInfo) (rest : List FileInfo) (st : St)
    (hig : matchesIgnore ignore (joinPath dirpath f.name) = false)
    (hdir : f.isDir = false) (hsym : f.isSymlink = false)
    (hemp : stripLeadSlash (if strHasPrefix (joinPath dirpath f.name) pre then
        List.drop pre.length (joinPath dirpath f.name)
      else joinPath dir f.name) = []) :
    ffLoop fs ignore rec dir dirpath pre recursive (f :: rest) st =
      (st, some (Err.invalidFile (joinPath dirpath f.name))) := by
  simp [ffLoop, hig, hdir, hsym, hemp]

lemma ffLoop_eq_file_panic (fs : FS) (ignore : List (Str → Bool))
    (rec : Str → St → St × Option Err) (dir dirpath pre : Str) (recursive : Bool)
    (f : FileInfo) (rest : List FileInfo) (st : St)
    (hig : matchesIgnore ignore (joinPath dirpath f.name) = false)
    (hdir : f.isDir = false) (hsym : f.isSymlink = false)
    (hemp : stripLeadSlash (if strHasPrefix (joinPath dirpath f.name) pre then
        List.drop pre.length (joinPath dirpath f.name)
      else joinPath dir f.name) ≠ [])
    (hsan : safeFunctionName (stripLeadSlash (if strHasPrefix (joinPath dirpath f.name) pre then
        List.drop pre.length (joinPath dirpath f.name)
      else joinPath dir f.name)) st.known = none) :
    ffLoop fs ignore rec dir dirpath pre recursive (f :: rest) st =
      (st, some (Err.sanitizerPanic (stripLeadSlash
        (if strHasPrefix (joinPath dirpath f.name) pre then
          List.drop pre.length (joinPath dirpath f.name)
        else joinPath dir f.name)))) := by
  simp [ffLoop, hig, hdir, hsym, hemp, hsan]

lemma ffLoop_eq_file_ok (fs : FS) (ignore : List (Str → Bool))
    (rec : Str → St → St × Option Err) (dir dirpath pre : Str) (recursive : Bool)
    (f : FileInfo) (rest : List FileInfo) (st : St) (fn : Str) (known2 : KnownMap)
    (hig : matchesIgnore ignore (joinPath dirpath f.name) = false)
    (hdir : f.isDir = false) (hsym : f.isSymlink = false)
    (hemp : stripLeadSlash (if strHasPrefix (joinPath dirpath f.name) pre then
        List.drop pre.length (joinPath dirpath f.name)
      else joinPath dir f.name) ≠ [])
    (hsan : safeFunctionName (stripLeadSlash (if strHasPrefix (joinPath dirpath f.name) pre then
        List.drop pre.length (joinPath dirpath f.name)
      else joinPath dir f.name)) st.known = some (fn, known2)) :
    ffLoop fs ignore rec dir dirpath pre recursive (f :: rest) st =
      ffLoop fs ignore rec dir dirpath pre recursive rest
        ⟨st.toc ++ [{ Path := absPath fs.wd (joinPath dirpath f.name),
                      Name := stripLeadSlash (if strHasPrefix (joinPath dirpath f.name) pre then
                          List.drop pre.length (joinPath dirpath f.name)
                        else joinPath dir f.name),
                      Func := fn }],
          known2, st.visited⟩ := by
  simp [ffLoop, hig, hdir, hsym, hemp, hsan]

/-! ### Catalog monotonicity: the walker only appends -/

lemma rec_toc_mono_mk (rec : Str → St → St × Option Err)
    (hrec : ∀ d st, st.toc <+: ((rec d st).1).toc)
    (d : Str) (t : List Asset) (k : KnownMap) (v : PathSet) :
    t <+: ((rec d ⟨t, k, v⟩).1).toc := hrec d ⟨t, k, v⟩

lemma loop_toc_mk (g : St → St × Option Err)
    (hg : ∀ st, st.toc <+: ((g st).1).toc)
    (t : List Asset) (k : KnownMap) (v : PathSet) :
    t <+: ((g ⟨t, k, v⟩).1).toc := hg ⟨t, k, v⟩

lemma ffLoop_toc_mono (fs : FS) (ignore : List (Str → Bool))
    (rec : Str → St → St × Option Err) (dir dirpath pre : Str) (recursive : Bool)
    (hrec : ∀ d st, st.toc <+: ((rec d st).1).toc) :
    ∀ (lst : List FileInfo) (st : St),
      st.toc <+: ((ffLoop fs ignore rec dir dirpath pre recursive lst st).1).toc := by
  intro lst
  induction lst with
  | nil => intro st; exact List.prefix_rfl
  | cons f rest ih =>
    intro st
    simp only [ffLoop]
    repeat' split
    all_goals first
      | exact List.prefix_rfl
      | exact ih st
      | exact List.IsPrefix.trans (rec_toc_mono_mk rec hrec _ _ _ _) (ih _)
      | exact List.IsPrefix.trans (List.prefix_append _ _)
          (loop_toc_mk (ffLoop fs ignore rec dir dirpath pre recursive rest) ih _ _ _)

lemma findFiles_toc_mono (fs : FS) (ignore : List (Str → Bool)) :
    ∀ (fuel : Nat) (dir pre0 : Str) (recursive : Bool) (st : St),
      st.toc <+: ((findFiles fs ignore fuel dir pre0 recursive st).1).toc := by
  intro fuel
  induction fuel with
  | zero => intro dir pre0 recursive st; exact List.prefix_rfl
  | succ fuel ih =>
    intro dir pre0 recursive st
    simp only [findFiles]
    repeat' split
    all_goals first
      | exact List.prefix_rfl
      | exact ffLoop_toc_mono fs ignore _ _ _ _ _ (fun d st2 => ih d _ _ st2) _ _
      | exact loop_toc_mk (ffLoop fs ignore _ _ _ _ _ _)
          (ffLoop_toc_mono fs ignore _ _ _ _ _ (fun d st2 => ih d _ _ st2) _) _ _ _

lemma discoverLoop_toc_mono (fs : FS) (ignore : List (Str → Bool)) (fuel : Nat)
    (pre : Str) :
    ∀ (inputs : List InputSpec) (st : St),
      st.toc <+: ((discoverLoop fs ignore fuel pre inputs st).1).toc := by
  intro inputs
  induction inputs with
  | nil => intro st; exact List.prefix_rfl
  | cons i rest ih =>
    intro st
    have hm := findFiles_toc_mono fs ignore fuel i.path pre i.recursive st
    simp only [discoverLoop]
    cases hf : findFiles fs ignore fuel i.path pre i.recursive st with
    | mk st2 e =>
      rw [hf] at hm
      cases e with
      | none => exact hm.trans (ih st2)
      | some e0 => exact hm


/-! ### Invariant preservation through the walker -/

lemma ffLoop_inv (fs : FS) (ignore : List (Str → Bool))
    (rec : Str → St → St × Option Err) (dir dirpath pre : Str) (recursive : Bool)
    (hrecmono : ∀ d st, st.toc <+: ((rec d st).1).toc)
    (hrecinv : ∀ d st, Inv st.toc st.known →
      (∀ a ∈ ((rec d st).1).toc, assetOk a) →
      Inv ((rec d st).1).toc ((rec d st).1).known) :
    ∀ (lst : List FileInfo) (st : St), Inv st.toc st.known →
      (∀ a ∈ ((ffLoop fs ignore rec dir dirpath pre recursive lst st).1).toc, assetOk a) →
      Inv ((ffLoop fs ignore rec dir dirpath pre recursive lst st).1).toc
        ((ffLoop fs ignore rec dir dirpath pre recursive lst st).1).known := by
  intro lst
  induction lst with
  | nil => intro st hinv _; exact hinv
  | cons f rest ih =>
    intro st hinv hall
    by_cases hig : matchesIgnore ignore (joinPath dirpath f.name) = true
    · rw [ffLoop_eq_ignore fs ignore rec dir dirpath pre recursive f rest st hig] at hall ⊢
      exact ih st hinv hall
    · have higf : matchesIgnore ignore (joinPath dirpath f.name) = false := by
        simpa using hig
      by_cases hdir : f.isDir = true
      · by_cases hrecv : recursive = true
        · rw [ffLoop_eq_dir_rec fs ignore rec dir dirpath pre recursive f rest st
            higf hdir hrecv] at hall ⊢
          refine ih _ ?_ hall
          refine hrecinv _ _ hinv ?_
          intro a ha
          exact hall a
            ((ffLoop_toc_mono fs ignore rec dir dirpath pre recursive hrecmono rest _).subset ha)
        · have hrecvf : recursive = false := by simpa using hrecv
          rw [ffLoop_eq_dir_norec fs ignore rec dir dirpath pre recursive f rest st
            higf hdir hrecvf] at hall ⊢
          exact ih st hinv hall
      · have hdirf : f.isDir = false := by simpa using hdir
        by_cases hsym : f.isSymlink = true
        · cases hrl : fs.readlink (joinPath dirpath f.name) with
          | error e =>
            rw [ffLoop_eq_symlink_err fs ignore rec dir dirpath pre recursive f rest st e
              higf hdirf hsym hrl] at hall ⊢
            exact hinv
          | ok lp =>
            by_cases hmem :
                (if isAbsPath lp then lp else absPath fs.wd (dirpath ++ '/' :: lp)) ∈ st.visited
            · rw [ffLoop_eq_symlink_skip fs ignore rec dir dirpath pre recursive f rest st lp
                higf hdirf hsym hrl hmem] at hall ⊢
              exact ih st hinv hall
            · rw [ffLoop_eq_symlink_follow fs ignore rec dir dirpath pre recursive f rest st lp
                higf hdirf hsym hrl hmem] at hall ⊢
              refine ih _ ?_ hall
              refine hrecinv _ _ hinv ?_
              intro a ha
              exact hall a
                ((ffLoop_toc_mono fs ignore rec dir dirpath pre recursive hrecmono rest _).subset ha)
        · have hsymf : f.isSymlink = false := by simpa using hsym
          by_cases hemp : stripLeadSlash (if strHasPrefix (joinPath dirpath f.name) pre then
              List.drop pre.length (joinPath dirpath f.name)
            else joinPath dir f.name) = []
          · rw [ffLoop_eq_file_empty fs ignore rec dir dirpath pre recursive f rest st
              higf hdirf hsymf hemp] at hall ⊢
            exact hinv
          · cases hsan : safeFunctionName (stripLeadSlash
                (if strHasPrefix (joinPath dirpath f.name) pre then
                  List.drop pre.length (joinPath dirpath f.name)
                else joinPath dir f.name)) st.known with
            | none =>
              rw [ffLoop_eq_file_panic fs ignore rec dir dirpath pre recursive f rest st
                higf hdirf hsymf hemp hsan] at hall ⊢
              exact hinv
            | some pr =>
              obtain ⟨fn, known2⟩ := pr
              rw [ffLoop_eq_file_ok fs ignore rec dir dirpath pre recursive f rest st fn known2
                higf hdirf hsymf hemp hsan] at hall ⊢
              refine ih _ ?_ hall
              refine Inv_append st.toc st.known known2 _ _ fn hinv ?_ hsan
              intro b hb
              have hmem2 : (⟨absPath fs.wd (joinPath dirpath f.name),
                  stripLeadSlash (if strHasPrefix (joinPath dirpath f.name) pre then
                      List.drop pre.length (joinPath dirpath f.name)
                    else joinPath dir f.name), fn⟩ : Asset) ∈
                  ((ffLoop fs ignore rec dir dirpath pre recursive rest
                    ⟨st.toc ++ [⟨absPath fs.wd (joinPath dirpath f.name),
                      stripLeadSlash (if strHasPrefix (joinPath dirpath f.name) pre then
                          List.drop pre.length (joinPath dirpath f.name)
                        else joinPath dir f.name), fn⟩], known2, st.visited⟩).1).toc :=
                (ffLoop_toc_mono fs ignore rec dir dirpath pre recursive hrecmono rest
                  _).subset (by simp)
              exact hall _ hmem2 b hb

lemma findFiles_inv (fs : FS) (ignore : List (Str → Bool)) :
    ∀ (fuel : Nat) (dir pre0 : Str) (recursive : Bool) (st : St),
      Inv st.toc st.known →
      (∀ a ∈ ((findFiles fs ignore fuel dir pre0 recursive st).1).toc, assetOk a) →
      Inv ((findFiles fs ignore fuel dir pre0 recursive st).1).toc
        ((findFiles fs ignore fuel dir pre0 recursive st).1).known := by
  intro fuel
  induction fuel with
  | zero => intro dir pre0 recursive st hinv _; exact hinv
  | succ fuel ih =>
    intro dir pre0 recursive st hinv hall
    simp only [findFiles] at hall ⊢
    cases hstat : fs.stat (if pre0 ≠ [] then absPath fs.wd dir else dir) with
    | error e =>
      simp only [hstat] at hall ⊢
      exact hinv
    | ok fi =>
      simp only [hstat] at hall ⊢
      by_cases hfd : fi.isDir = true
      · simp only [hfd, Bool.not_true, Bool.false_eq_true, if_false] at hall ⊢
        cases hrd : fs.readdir (if pre0 ≠ [] then absPath fs.wd dir else dir) with
        | error e =>
          simp only [hrd] at hall ⊢
          exact hinv
        | ok list =>
          simp only [hrd] at hall ⊢
          exact ffLoop_inv fs ignore _ _ _ _ _
            (fun d st2 => findFiles_toc_mono fs ignore fuel d _ _ st2)
            (fun d st2 h1 h2 => ih d _ _ st2 h1 h2) _ _ hinv hall
      · have hfdf : fi.isDir = false := by simpa using hfd
        simp only [hfdf, Bool.not_false, if_true] at hall ⊢
        exact ffLoop_inv fs ignore _ _ _ _ _
          (fun d st2 => findFiles_toc_mono fs ignore fuel d _ _ st2)
          (fun d st2 h1 h2 => ih d _ _ st2 h1 h2) _ _ hinv hall

lemma discoverLoop_inv (fs : FS) (ignore : List (Str → Bool)) (fuel : Nat) (pre : Str) :
    ∀ (inputs : List InputSpec) (st : St), Inv st.toc st.known →
      (∀ a ∈ ((discoverLoop fs ignore fuel pre inputs st).1).toc, assetOk a) →
      Inv ((discoverLoop fs ignore fuel pre inputs st).1).toc
        ((discoverLoop fs ignore fuel pre inputs st).1).known := by
  intro inputs
  induction inputs with
  | nil => intro st hinv _; exact hinv
  | cons i rest ih =>
    intro st hinv hall
    simp only [discoverLoop] at hall ⊢
    cases hf : findFiles fs ignore fuel i.path pre i.recursive st with
    | mk st2 e =>
      rw [hf] at hall
      cases e with
      | some e0 =>
        have h2 := findFiles_inv fs ignore fuel i.path pre i.recursive st hinv
          (by rw [hf]; exact hall)
        rw [hf] at h2
        exact h2
      | none =>
        have hallst2 : ∀ a ∈ st2.toc, assetOk a := fun a ha =>
          hall a ((discoverLoop_toc_mono fs ignore fuel pre rest st2).subset ha)
        have h2 := findFiles_inv fs ignore fuel i.path pre i.recursive st hinv
          (by rw [hf]; exact hallst2)
        rw [hf] at h2
        exact ih st2 h2 hall

/-- A decidable sufficient condition for `goodBase`. -/
def goodBaseB (s : Str) : Bool :=
  !s.isEmpty && Option.all (fun c => !isDigitChar c) s.getLast?

lemma goodBase_of_goodBaseB (s : Str) (h : goodBaseB s = true) : goodBase s := by
  unfold goodBaseB at h
  rw [Bool.and_eq_true] at h
  obtain ⟨h1, h2⟩ := h
  refine ⟨?_, ?_⟩
  · intro he
    subst he
    simp at h1
  · intro c hc
    rw [hc] at h2
    simpa using h2

lemma goodBase_of_candFunc_all (name b : Str) (hb : candFunc name = some b)
    (h : Option.all goodBaseB (candFunc name) = true) : goodBase b := by
  rw [hb] at h
  exact goodBase_of_goodBaseB b (by simpa using h)

def fBTxt : Str := ['b', 'T', 'x', 't']

def fSubCTxt : Str := ['s', 'u', 'b', 'C', 'T', 'x', 't']

def pRootBtxt : Str := ['/', 'r', 'o', 'o', 't', '/', 'b', '.', 't', 'x', 't']

def pRootSubC : Str := ['/', 'r', 'o', 'o', 't', '/', 's', 'u', 'b', '/', 'c', '.', 't', 'x', 't']

/-- The catalog of the C1 witness run over `fs6`. -/
def tocW : List Asset :=
  [{ Path := pRootAtxt, Name := nAtxt, Func := fATxt },
   { Path := pRootBtxt, Name := nBtxt, Func := fBTxt },
   { Path := pRootSubC, Name := nSubCtxt, Func := fSubCTxt }]

/-- Claim C1, amended: for every catalog a successful discovery run
produces, the `Func` values are pairwise distinct *provided* no asset's
sanitized candidate base ends in a decimal digit.  (Without that proviso
the claim is false: a suffixed identifier such as `aXTxt2` can later be
issued again bare when another asset's base is itself `aXTxt2`; see the
counterexample.) -/
theorem C1_funcs_distinct_for_digit_free_bases (fs : FS) (ignore : List (Str → Bool))
    (fuel : Nat) (inputs : List InputSpec) (pre : Str) (toc : List Asset)
    (hok : translateAssets fs ignore fuel inputs pre = Except.ok toc)
    (hgood : ∀ a ∈ toc, ∀ b, candFunc a.Name = some b → goodBase b) :
    List.Pairwise (fun x y => x ≠ y) (toc.map Asset.Func) := by
  unfold translateAssets at hok
  cases hd : discoverLoop fs ignore fuel pre inputs { toc := [], known := [], visited := [] } with
  | mk st2 e =>
    rw [hd] at hok
    cases e with
    | some e0 => cases hok
    | none =>
      have htoc : toc = st2.toc := by
        injection hok with h1
        exact h1.symm
      subst htoc
      have hinv0 : Inv (St.toc { toc := [], known := [], visited := [] })
          (St.known { toc := [], known := [], visited := [] }) := by
        refine ⟨?_, ?_, ?_⟩
        · intro b v h
          exact Option.noConfusion h
        · intro f hf
          simp at hf
        · simp
      have h2 := discoverLoop_inv fs ignore fuel pre inputs
        { toc := [], known := [], visited := [] } hinv0
        (by rw [hd]; intro a ha b hb; exact hgood a ha b hb)
      rw [hd] at h2
      exact h2.2.2

/-- Witness for the amended C1 at a concrete input: the recursive `fs6`
run produces the catalog `tocW`, all three candidate bases (`aTxt`,
`bTxt`, `subCTxt`) are digit-free, and the `Func` values are pairwise
distinct. -/
theorem C1_witness :
    List.Pairwise (fun x y => x ≠ y) (tocW.map Asset.Func) :=
  C1_funcs_distinct_for_digit_free_bases fs6 [] 5 [⟨pRoot, true⟩] pRoot tocW
    (by decide)
    (by
      intro a ha b hb
      refine goodBase_of_candFunc_all a.Name b hb ?_
      fin_cases ha <;> decide)

end Bindata
